import Mathlib

/-!
Verification development for the ommiquiz backend's flashcard storage and
catalog subsystem (`backend/app/storage.py`, `backend/app/main.py`).

Modelling conventions:
* The storage namespace (a directory, or an S3 bucket prefix) is a finite
  association list of entries `filename ↦ content`, in enumeration order.
* YAML content is embedded symbolically: `Content.yaml d` is text that
  `yaml.safe_load` parses to the mapping `d`, `Content.catalog c` is a
  serialized catalog, and `Content.malformed` is text on which parsing fails
  (or yields a non-mapping, which every modelled flow treats the same way).
  Serialization (`yaml.dump`) is the constructor itself, so the
  dump/load round trip is definitional, as it is for `safe_dump`/`safe_load`.
* Python string scalars are ASCII in every modelled flow; `Char.isAlphanum`,
  `Char.toLower` and `Char.isWhitespace` stand in for the Python predicates.
* I/O failures (unreadable file, network error) are not modelled: every
  targeted read of an existing entry succeeds.
-/

/-- One character of the pattern `[a-zA-Z0-9_-]` from `VALID_ID_PATTERN`. -/
def validChar (c : Char) : Bool :=
  c.isAlphanum || c = '-' || c = '_'

/-- Models `VALID_ID_PATTERN.match(s)`, i.e. `re.match(r"^[a-zA-Z0-9_-]+$", s)`.
Python's `$` also matches just before a single trailing newline. -/
def validId (s : String) : Bool :=
  let t := if s.data.getLast? = some '\n' then s.data.dropLast else s.data
  !t.isEmpty && t.all validChar

/-- Python `str.endswith`: suffix test on the character sequence. -/
def endsWithS (fn ext : String) : Bool :=
  List.isSuffixOf ext.data fn.data

/-- Helper for `pathStem`: walk the reversed filename, drop the characters of
the final suffix through the last dot; `none` when the name has no dot. -/
def dropExtRev : List Char → Option (List Char)
  | [] => none
  | '.' :: rest => some rest
  | _ :: rest => dropExtRev rest

/-- Models `pathlib.Path(fn).stem`: the filename with its last suffix removed.
A name whose only dot is the leading one (a hidden file such as `.yaml`)
has no suffix, so it is its own stem. -/
def pathStem (fn : String) : String :=
  match dropExtRev fn.data.reverse with
  | none => fn
  | some [] => fn
  | some rest => ⟨rest.reverse⟩

/-! ## Data model: parsed YAML values -/

/-- The `answers` value of a card: a list of strings, or some non-list value
(`isinstance(card["answers"], list)` fails on the latter). -/
inductive Answers where
  | alist (l : List String)
  | notList
deriving DecidableEq, Repr

/-- A card mapping. A field is `none` when the key is absent.
(The modelled flows never store non-string scalars in these keys; a YAML
`null` card id is folded into `none`, which the code treats identically.) -/
structure Card where
  id : Option String
  question : Option String
  ctype : Option String
  answer : Option String
  answers : Option Answers
  bitmap : Option String
deriving DecidableEq, Repr

/-- An element of the `flashcards` list: a mapping, or some non-dict value
(`isinstance(card, dict)` fails on the latter). -/
inductive CardEntry where
  | obj (c : Card)
  | notDict
deriving DecidableEq, Repr

/-- The `flashcards` value: a list, or some non-list value. -/
inductive FlashList where
  | flist (cs : List CardEntry)
  | notList
deriving DecidableEq, Repr

/-- A parsed top-level YAML mapping. A field is `none` when the key is
absent. `otherKeys` records whether the mapping has keys beyond the modelled
ones (it makes an otherwise-empty mapping truthy). -/
structure YamlData where
  id : Option String
  author : Option String
  title : Option String
  description : Option String
  createDate : Option String
  language : Option String
  level : Option String
  module : Option String
  topics : Option (List String)
  keywords : Option (List String)
  flashcards : Option FlashList
  otherKeys : Bool
deriving DecidableEq, Repr

/-- Python truthiness of the parsed mapping (`if data and ...`):
a dict is truthy iff it has at least one key. -/
def yamlTruthy (d : YamlData) : Bool :=
  d.id.isSome || d.author.isSome || d.title.isSome || d.description.isSome ||
  d.createDate.isSome || d.language.isSome || d.level.isSome ||
  d.module.isSome || d.topics.isSome || d.keywords.isSome ||
  d.flashcards.isSome || d.otherKeys

/-- One metadata row of the catalog, as built by
`_extract_flashcard_metadata`. -/
structure FlashMeta where
  id : String
  filename : String
  title : String
  description : String
  language : String
  level : String
  author : String
  topics : List String
  module : String
  cardcount : Nat
  modified_time : Option Nat
deriving DecidableEq, Repr

/-- The catalog document built by `generate_flashcard_catalog`. -/
structure CatalogData where
  generatedAt : String
  total : Nat
  sets : List FlashMeta
deriving DecidableEq, Repr

/-- Stored text, embedded symbolically (see the header comment). -/
inductive Content where
  | yaml (d : YamlData)
  | catalog (c : CatalogData)
  | malformed
deriving DecidableEq, Repr

/-- A serialized catalog parses to a mapping that has none of the flashcard
keys (in particular no `id`) but is non-empty, hence truthy. -/
def catalogAsYaml : YamlData :=
  ⟨none, none, none, none, none, none, none, none, none, none, none, true⟩

/-- Models `yaml.safe_load` on stored text: `none` models a parse failure. -/
def safe_load : Content → Option YamlData
  | .yaml d => some d
  | .catalog _ => some catalogAsYaml
  | .malformed => none

/-! ## Document store -/

/-- One stored file/object: physical name, content, last-write time. -/
structure Entry where
  filename : String
  content : Content
  mtime : Option Nat
deriving DecidableEq, Repr

/-- A storage namespace (directory / key prefix), in enumeration order. -/
abbrev Store := List Entry

/-- Models `FlashcardDocument` from `storage.py`. -/
structure FlashcardDocument where
  id : String
  filename : String
  content : Content
  modified_time : Option Nat
deriving DecidableEq, Repr

/-- Models `Path.exists()` / a successful `head_object` probe for `fn`. -/
def fileExists (s : Store) (fn : String) : Bool :=
  s.any fun e => e.filename = fn

/-- Fetch the entry stored under the exact name `fn`. -/
def findEntry (s : Store) (fn : String) : Option Entry :=
  s.find? fun e => decide (e.filename = fn)

/-- The content stored under the exact name `fn`. -/
def lookupContent (s : Store) (fn : String) : Option Content :=
  (findEntry s fn).map (·.content)

/-- Models `write_text` / `put_object`: replace the entry named `fn` in place, or
append a new one. `t` is the write timestamp the backend records. -/
def upsert : Store → String → Content → Option Nat → Store
  | [], fn, c, t => [⟨fn, c, t⟩]
  | e :: es, fn, c, t =>
      if e.filename = fn then ⟨fn, c, t⟩ :: es else e :: upsert es fn c t

/-- Models `Path.unlink` / `delete_object` on the exact name `fn` (filenames are
unique within a namespace, so filtering removes at most one entry). -/
def removeFile (s : Store) (fn : String) : Store :=
  s.filter fun e => !decide (e.filename = fn)

/-- Models `LocalFlashcardStorage._get_flashcard_path`: probe `<id>.yaml` then
`<id>.yml`. `S3FlashcardStorage._find_existing_key` probes in the same
order with `head_object`. -/
def get_flashcard_path (s : Store) (fid : String) : Option String :=
  if fileExists s (fid ++ ".yaml") then some (fid ++ ".yaml")
  else if fileExists s (fid ++ ".yml") then some (fid ++ ".yml")
  else none

/-- Models `LocalFlashcardStorage.get_flashcard` (and, identically at this level of
abstraction, `S3FlashcardStorage.get_flashcard`): fast-path fetch by id. -/
def get_flashcard (s : Store) (fid : String) : Option FlashcardDocument :=
  match get_flashcard_path s fid with
  | none => none
  | some fn =>
    match findEntry s fn with
    | none => none
    | some e => some ⟨fid, e.filename, e.content, e.mtime⟩

/-- Outcome of a save: the `FileExistsError` path, or the saved document. -/
inductive SaveOutcome where
  | alreadyExists
  | ok (doc : FlashcardDocument)
deriving DecidableEq, Repr

/-- Models `LocalFlashcardStorage.save_flashcard`: refuse if the target exists and
`overwrite` is false (raising before any write, so the store is returned
untouched); otherwise write the full content. The returned document carries
`id=Path(filename).stem` and no timestamp, as in the source. -/
def save_flashcard (s : Store) (fn : String) (c : Content) (ow : Bool)
    (t : Option Nat) : Store × SaveOutcome :=
  if fileExists s fn && !ow then (s, .alreadyExists)
  else (upsert s fn c t, .ok ⟨pathStem fn, fn, c, none⟩)

/-- Models `S3FlashcardStorage.save_flashcard`: a `head_object` probe guards the
non-overwrite case; `put_object` records no local timestamp. -/
def s3_save_flashcard (s : Store) (fn : String) (c : Content) (ow : Bool) :
    Store × SaveOutcome :=
  if !ow && fileExists s fn then (s, .alreadyExists)
  else (upsert s fn c none, .ok ⟨pathStem fn, fn, c, none⟩)

/-- Models `LocalFlashcardStorage.delete_flashcard`: for each of `.yaml`, `.yml`,
unlink `<id><ext>` when it exists and record the removed name. -/
def delete_flashcard (s : Store) (fid : String) : Store × List String :=
  let fn1 := fid ++ ".yaml"
  let r1 : Store × List String :=
    if fileExists s fn1 then (removeFile s fn1, [fn1]) else (s, [])
  let fn2 := fid ++ ".yml"
  if fileExists r1.1 fn2 then (removeFile r1.1 fn2, r1.2 ++ [fn2])
  else r1

/-- Models `S3FlashcardStorage.delete_flashcard`: `delete_object` succeeds whether
or not the key exists (S3 deletes are idempotent), so — network failures
aside — both candidate filenames are always appended to the result. -/
def s3_delete_flashcard (s : Store) (fid : String) : Store × List String :=
  (removeFile (removeFile s (fid ++ ".yaml")) (fid ++ ".yml"),
   [fid ++ ".yaml", fid ++ ".yml"])

/-- Models `delete_flashcard_by_filename` (both backends): exact-name removal,
reporting whether a file was there to remove. (The S3 variant reports
success even for a missing key; the modelled flows only call it on names
obtained from a listing, where the two coincide.) -/
def delete_flashcard_by_filename (s : Store) (fn : String) : Store × Bool :=
  (removeFile s fn, fileExists s fn)

/-- Models `flashcard_exists` (both backends): the filename-based probe only. -/
def flashcard_exists (s : Store) (fid : String) : Bool :=
  (get_flashcard_path s fid).isSome

/-- Models `save_catalog` (both backends): unconditionally (over)write the catalog
under its well-known name. The write timestamp is never observed by any
modelled flow, so it is recorded as `none`. -/
def save_catalog (s : Store) (c : Content) (catalog_filename : String) :
    Store :=
  upsert s catalog_filename c none

/-! ## main.py: catalog builder -/

/-- Models `CATALOG_FILENAME = "flashcards_catalog.yml"`. -/
def CATALOG_FILENAME : String := "flashcards_catalog.yml"

/-- The `FlashcardDocument` a listing builds for a stored entry: the derived
id is the filename stem. -/
def toDoc (e : Entry) : FlashcardDocument :=
  ⟨pathStem e.filename, e.filename, e.content, e.mtime⟩

/-- Models `list_flashcards` (both backends): enumerate `*.yaml` matches, then
`*.yml` matches, in namespace order. Unreadable entries (not modelled)
would be skipped. -/
def list_flashcards (s : Store) : List FlashcardDocument :=
  ((s.filter fun e => endsWithS e.filename ".yaml") ++
   (s.filter fun e => endsWithS e.filename ".yml")).map toDoc

/-- The catalog-filename skip in `collect_flashcard_metadata`:
`filename in (CATALOG_FILENAME, "flashcards_catalog.yaml", "flashcards_catalog.yml")`. -/
def isCatalogName (fn : String) : Bool :=
  fn = CATALOG_FILENAME || fn = "flashcards_catalog.yaml" ||
  fn = "flashcards_catalog.yml"

/-- Models `_extract_flashcard_metadata`: filename-derived defaults, overridden by
the parsed header fields when the content parses; `cardcount` is the length
of the `flashcards` list when that value is a list. -/
def extract_flashcard_metadata (doc : FlashcardDocument) : FlashMeta :=
  let base : FlashMeta :=
    ⟨doc.id, doc.filename, doc.id, "", "", "", "", [], "", 0,
     doc.modified_time⟩
  match safe_load doc.content with
  | none => base
  | some data =>
    let actual := data.id.getD doc.id
    { base with
      id := actual
      title := data.title.getD actual
      description := data.description.getD ""
      language := data.language.getD ""
      level := data.level.getD ""
      author := data.author.getD ""
      topics := data.topics.getD []
      module := data.module.getD ""
      cardcount :=
        match data.flashcards with
        | some (.flist cs) => cs.length
        | _ => 0 }

/-- Models `collect_flashcard_metadata`: one metadata row per listed document,
skipping the catalog file under either extension. -/
def collect_flashcard_metadata (s : Store) : List FlashMeta :=
  (list_flashcards s).filterMap fun d =>
    if isCatalogName d.filename then none
    else some (extract_flashcard_metadata d)

/-- Models `generate_flashcard_catalog`: collect the metadata, wrap it with the
generation timestamp (`now`) and total, and persist it via `save_catalog`. -/
def generate_flashcard_catalog (now : String) (s : Store) :
    CatalogData × Store :=
  let files := collect_flashcard_metadata s
  let c : CatalogData := ⟨now, files.length, files⟩
  (c, save_catalog s (.catalog c) CATALOG_FILENAME)

/-! ## main.py: id resolution -/

/-- The per-document test inside `find_flashcard_filename_by_id`'s loop:
skip the catalog file (`.yml` spelling only, unlike the collector), skip
parse failures, and match on `data and data.get("id") == flashcard_id`. -/
def scan_match (fid : String) (d : FlashcardDocument) : Option String :=
  if d.filename = CATALOG_FILENAME then none
  else
    match safe_load d.content with
    | none => none
    | some data =>
      if yamlTruthy data && data.id = some fid then some d.filename else none

/-- Models `find_flashcard_filename_by_id`: full scan of the listing for the first
document whose declared content id equals `fid`. -/
def find_flashcard_filename_by_id (s : Store) (fid : String) :
    Option String :=
  (list_flashcards s).findSome? (scan_match fid)

/-- Models `get_flashcard_document`: reject path ids failing `VALID_ID_PATTERN`,
then the storage fast path. -/
def get_flashcard_document (s : Store) (fid : String) :
    Option FlashcardDocument :=
  if !validId fid then none else get_flashcard s fid

/-- The global branch of the `GET /flashcards/{id}` endpoint: fast path,
then the fallback scan followed by a re-listing fetch by exact filename. -/
def get_flashcard_endpoint (s : Store) (fid : String) :
    Option FlashcardDocument :=
  match get_flashcard_document s fid with
  | some d => some d
  | none =>
    match find_flashcard_filename_by_id s fid with
    | none => none
    | some fn => (list_flashcards s).find? fun d => decide (d.filename = fn)

/-! ## main.py: card-id synthesis -/

/-- Models `str(n).zfill(3)` for a non-negative `n`. -/
def zfill3 (s : String) : String :=
  ⟨List.replicate (3 - s.length) '0' ++ s.data⟩

/-- Models `generate_card_id`: keep the alphanumeric characters of the set id,
take the first three, lowercase them, pad on the right with `x` to length
three, and append the 1-based index zero-padded to three digits. -/
def generate_card_id (cardset_id : String) (card_index : Nat) : String :=
  let pfx := ((cardset_id.data.filter Char.isAlphanum).take 3).map Char.toLower
  let pfx := pfx ++ List.replicate (3 - pfx.length) 'x'
  ⟨pfx⟩ ++ zfill3 (toString (card_index + 1))

/-- Models `ensure_card_ids`: when the data has a `flashcards` list, give every
card mapping whose `id` is absent or falsy (the empty string) a synthesized
id; non-dict elements are left alone. -/
def ensure_card_ids (data : YamlData) : YamlData :=
  match data.flashcards with
  | some (.flist cs) =>
    let cardset_id := data.id.getD "unknown"
    { data with
      flashcards := some (.flist (cs.enum.map fun p =>
        match p.2 with
        | .notDict => .notDict
        | .obj c =>
          if c.id = none || c.id = some "" then
            .obj { c with id := some (generate_card_id cardset_id p.1) }
          else .obj c)) }
  | _ => data

/-! ## main.py: structural validation -/

/-- The error kinds appended by `validate_flashcard_yaml`, one constructor
per `errors.append` site. -/
inductive VErr where
  | missingField (f : String)
  | badIdFormat
  | flashcardsNotList
  | cardNotObject (i : Nat)
  | cardMissingQuestion (i : Nat)
  | cardMissingType (i : Nat)
  | cardSingleMissingAnswer (i : Nat)
  | cardMultipleMissingAnswers (i : Nat)
  | cardAnswersNotList (i : Nat)
  | cardInvalidType (i : Nat)
  | cardBitmapInvalidUrl (i : Nat)
  | cardBitmapBadDataUri (i : Nat)
  | cardBitmapBadBase64 (i : Nat)
deriving DecidableEq, Repr

/-- The warning kinds appended by `validate_flashcard_yaml`. -/
inductive VWarn where
  | unknownLanguage
  | cardMissingId (i : Nat)
deriving DecidableEq, Repr

/-- A character of the class `[A-Za-z0-9+/=]`. -/
def base64Char (c : Char) : Bool :=
  c.isAlphanum || c = '+' || c = '/' || c = '='

/-- Models `^[A-Za-z0-9+/=]+$` on a raw base64 payload. -/
def base64Ok (s : String) : Bool :=
  !s.isEmpty && s.data.all base64Char

/-- Models `^data:image/[a-zA-Z+]+;base64,[A-Za-z0-9+/=]+$`. -/
def dataUriOk (s : String) : Bool :=
  List.isPrefixOf "data:image/".data s.data &&
  (let rest := s.data.drop "data:image/".length
   let run := rest.takeWhile fun c => c.isAlpha || c = '+'
   let rest2 := rest.drop run.length
   !run.isEmpty && List.isPrefixOf ";base64,".data rest2 &&
     (let b := rest2.drop ";base64,".length
      !b.isEmpty && b.all base64Char))

/-- The image-extension alternatives of the bitmap URL pattern. -/
def imageExts : List String := ["jpg", "jpeg", "png", "gif", "webp", "svg"]

/-- After the candidate dot: one of the extensions, optionally followed by a
`?query` tail (the `(\?.*)?$` part). -/
def extQueryOk (cs : List Char) : Bool :=
  imageExts.any fun e =>
    List.isPrefixOf e.data cs &&
    (cs.length = e.data.length || ((cs.drop e.data.length).head? = some '?'))

/-- Scan for a split `mid ++ "." ++ ext ++ query` after the scheme, where
`mid` is a non-empty whitespace-free run (the `[^\s]+\.` part); `seen`
records whether `mid` is non-empty so far. -/
def urlScan (seen : Bool) : List Char → Bool
  | [] => false
  | c :: cs =>
    (seen && c = '.' && extQueryOk cs) || (!c.isWhitespace && urlScan true cs)

/-- Models `re.match(r"^https?://[^\s]+\.(jpg|jpeg|png|gif|webp|svg)(\?.*)?$", s,
re.IGNORECASE)`, evaluated on the lowercased input. -/
def urlOk (s : String) : Bool :=
  let low := s.data.map Char.toLower
  (List.isPrefixOf "http://".data low && urlScan false (low.drop 7)) ||
  (List.isPrefixOf "https://".data low && urlScan false (low.drop 8))

/-- Models `valid_languages` from `validate_flashcard_yaml`. -/
def valid_languages : List String :=
  ["en", "de", "fr", "es", "it", "pt", "nl", "ru", "ja", "zh"]

/-- The validation outcome: `valid` is `errors == []`. -/
structure VResult where
  errors : List VErr
  warnings : List VWarn
deriving DecidableEq, Repr

/-- The bitmap errors for one card (empty list when the bitmap passes). -/
def bitmapErrs (i : Nat) (b : String) : List VErr :=
  let bv := b.trim
  if bv = "" then []
  else if List.isPrefixOf "http://".data bv.data ||
          List.isPrefixOf "https://".data bv.data then
    if !urlOk bv then [.cardBitmapInvalidUrl i] else []
  else if List.isPrefixOf "data:".data bv.data then
    if !dataUriOk bv then [.cardBitmapBadDataUri i] else []
  else if !base64Ok bv then [.cardBitmapBadBase64 i] else []

/-- The errors and warnings contributed by card `i` of the list. -/
def cardChecks (i : Nat) : CardEntry → List VErr × List VWarn
  | .notDict => ([.cardNotObject i], [])
  | .obj c =>
    let ws : List VWarn := if c.id = none then [.cardMissingId i] else []
    let es1 : List VErr :=
      if c.question = none then [.cardMissingQuestion i] else []
    let es2 : List VErr := if c.ctype = none then [.cardMissingType i] else []
    let es3 : List VErr :=
      match c.ctype with
      | none => []
      | some t =>
        if t = "single" then
          if c.answer = none then [.cardSingleMissingAnswer i] else []
        else if t = "multiple" then
          match c.answers with
          | none => [.cardMultipleMissingAnswers i]
          | some .notList => [.cardAnswersNotList i]
          | some (.alist _) => []
        else [.cardInvalidType i]
    let es4 : List VErr :=
      match c.bitmap with
      | none => []
      | some b => bitmapErrs i b
    (es1 ++ es2 ++ es3 ++ es4, ws)

/-- Models `validate_flashcard_yaml`: required top-level fields, id format,
language allow-list (warning only), and the per-card checks, collecting
every error rather than stopping at the first. -/
def validate_flashcard_yaml (data : YamlData) : VResult :=
  let fieldOf : String → Bool := fun f =>
    if f = "id" then data.id.isSome
    else if f = "author" then data.author.isSome
    else if f = "title" then data.title.isSome
    else if f = "description" then data.description.isSome
    else if f = "createDate" then data.createDate.isSome
    else if f = "language" then data.language.isSome
    else if f = "topics" then data.topics.isSome
    else if f = "keywords" then data.keywords.isSome
    else data.flashcards.isSome
  let required : List String :=
    ["id", "author", "title", "description", "createDate", "language",
     "topics", "keywords", "flashcards"]
  let missing : List VErr :=
    required.filterMap fun f => if fieldOf f then none else some (.missingField f)
  let idErrs : List VErr :=
    match data.id with
    | none => []
    | some s => if !validId s then [.badIdFormat] else []
  let langWarns : List VWarn :=
    match data.language with
    | none => []
    | some lang => if lang ∉ valid_languages then [.unknownLanguage] else []
  let cardResults : List (List VErr × List VWarn) :=
    match data.flashcards with
    | none => []
    | some .notList => [([.flashcardsNotList], [])]
    | some (.flist cs) => cs.enum.map fun p => cardChecks p.1 p.2
  ⟨missing ++ idErrs ++ (cardResults.map Prod.fst).flatten,
   langWarns ++ (cardResults.map Prod.snd).flatten⟩

/-! ## main.py: write endpoints -/

/-- Python `str.strip()`: drop whitespace from both ends. -/
def pyStrip (s : String) : String :=
  ⟨((s.data.dropWhile Char.isWhitespace).reverse.dropWhile
      Char.isWhitespace).reverse⟩

/-- Python `str.lower()` (ASCII). -/
def pyLower (s : String) : String :=
  ⟨s.data.map Char.toLower⟩

/-- Models `FlashcardUpdateRequest`. -/
structure FlashcardUpdateRequest where
  content : Content
  filename : String
  old_id : Option String
deriving DecidableEq, Repr

/-- The observable outcomes of `PUT /flashcards/{id}`. -/
inductive UpdateResult where
  | invalidId
  | invalidYaml
  | validationFailed (errors : List VErr) (warnings : List VWarn)
  | idMismatch
  | conflict
  | updated (filename : String) (isNew : Bool) (warnings : List VWarn)
deriving DecidableEq, Repr

/-- Models `update_flashcard` (`PUT /flashcards/{id}`): validate the path id, parse,
synthesize card ids, validate the structure, require the declared id to
match the path id, handle an explicit rename (delete the old file by its
scanned filename, best effort, then treat the write as a create), resolve
the target filename by the content-id scan, and save — reusing the found
filename with `overwrite=True`, or creating under the trimmed caller
filename (default `<id>.yml`) with `overwrite=False`. `t` is the write
timestamp the backend records. -/
def update_flashcard (s : Store) (fid : String)
    (req : FlashcardUpdateRequest) (t : Option Nat) : UpdateResult × Store :=
  if !validId fid then (.invalidId, s)
  else
    match safe_load req.content with
    | none => (.invalidYaml, s)
    | some data0 =>
      let data := ensure_card_ids data0
      let v := validate_flashcard_yaml data
      if !v.errors.isEmpty then (.validationFailed v.errors v.warnings, s)
      else if data.id ≠ some fid then (.idMismatch, s)
      else
        let isRename :=
          match req.old_id with
          | some oid => oid ≠ "" && oid ≠ fid
          | none => false
        let s1 : Store :=
          if isRename then
            match find_flashcard_filename_by_id s (req.old_id.getD "") with
            | some ofn => (delete_flashcard_by_filename s ofn).1
            | none => s
          else s
        let fnOpt : Option String :=
          if isRename then none else find_flashcard_filename_by_id s fid
        let isNew := fnOpt.isNone
        let fn :=
          if isNew then
            if pyStrip req.filename = "" then fid ++ ".yml" else pyStrip req.filename
          else fnOpt.getD ""
        let ow := !isNew
        match save_flashcard s1 fn (.yaml data) ow t with
        | (_, .alreadyExists) => (.conflict, s1)
        | (s2, .ok doc) => (.updated doc.filename isNew v.warnings, s2)

/-- The upload form: the uploaded file's name, its content, and the raw
string value of the `overwrite` form field. -/
structure UploadRequest where
  ufilename : String
  content : Content
  overwrite : String
deriving DecidableEq, Repr

/-- The observable outcomes of `POST /flashcards/upload`. (The 1 MB size
check is not modelled; content sizes are symbolic.) -/
inductive UploadResult where
  | badExtension
  | invalidYaml
  | validationFailed (errors : List VErr) (warnings : List VWarn)
  | conflict
  | saved (filename : String) (overwritten : Bool)
deriving DecidableEq, Repr

/-- Models `file.filename[file.filename.rfind('.'):]` for a name that passed the
extension check. -/
def uploadExt (fn : String) : String :=
  if endsWithS fn ".yaml" then ".yaml" else ".yml"

/-- Models `upload_flashcard` (`POST /flashcards/upload`): check the extension,
parse, synthesize card ids, validate, then target `<declared-id><ext>`;
an existing flashcard id without `overwrite=true` is a conflict. The
declared id is present whenever validation passed, so the `getD`
fallback is unreachable. -/
def upload_flashcard (s : Store) (req : UploadRequest) (t : Option Nat) :
    UploadResult × Store :=
  if !(endsWithS req.ufilename ".yaml" || endsWithS req.ufilename ".yml") then
    (.badExtension, s)
  else
    match safe_load req.content with
    | none => (.invalidYaml, s)
    | some data0 =>
      let data := ensure_card_ids data0
      let v := validate_flashcard_yaml data
      if !v.errors.isEmpty then (.validationFailed v.errors v.warnings, s)
      else
        let fid := data.id.getD ""
        let fn := fid ++ uploadExt req.ufilename
        let allow := pyLower req.overwrite = "true"
        let existing := flashcard_exists s fid
        if existing && !allow then (.conflict, s)
        else
          match save_flashcard s fn (.yaml data) allow t with
          | (_, .alreadyExists) => (.conflict, s)
          | (s2, .ok _) => (.saved fn existing, s2)

/-- The observable outcomes of `DELETE /flashcards/{id}`. -/
inductive DeleteEpResult where
  | notFound
  | deleteFailed
  | deleted (files : List String)
deriving DecidableEq, Repr

/-- The filename-resolution step of the delete endpoint: the fast path
(`get_flashcard_document`), falling back to the content-id scan. -/
def resolve_filename (s : Store) (fid : String) : Option String :=
  match get_flashcard_document s fid with
  | some doc => some doc.filename
  | none => find_flashcard_filename_by_id s fid

/-- The removal step of the delete endpoint: exact-name removal when the
resolved name is not `<id>.yaml`/`<id>.yml`, id-based removal otherwise. -/
def delete_resolved (s : Store) (fid fn : String) : Store × List String :=
  if fn ≠ fid ++ ".yaml" && fn ≠ fid ++ ".yml" then
    let d := delete_flashcard_by_filename s fn
    (d.1, if d.2 then [fn] else [])
  else delete_flashcard s fid

/-- Models `delete_flashcard` endpoint (`DELETE /flashcards/{id}`): resolve the
filename, remove, treat an empty removal list as a failure, and on success
regenerate the catalog (timestamped `now`). -/
def delete_flashcard_endpoint (s : Store) (fid : String) (now : String) :
    DeleteEpResult × Store :=
  match resolve_filename s fid with
  | none => (.notFound, s)
  | some fn =>
    let r := delete_resolved s fid fn
    if r.2.isEmpty then (.deleteFailed, s)
    else (.deleted r.2, (generate_flashcard_catalog now r.1).2)

/-! ## storage.py: user-flashcard id helpers -/

/-- Python `str.split(sep)` for a single-character separator: split on every
occurrence, keeping empty pieces (`"".split("_") == [""]`). -/
def pySplit (sep : Char) : List Char → List (List Char)
  | [] => [[]]
  | c :: cs =>
    let r := pySplit sep cs
    if c = sep then [] :: r
    else
      match r with
      | [] => [[c]]
      | h :: t => (c :: h) :: t

/-- Models `generate_user_flashcard_id`: `user_<first-8-chars-of-user-id>_<slug>`. -/
def generate_user_flashcard_id (user_id slug : String) : String :=
  let userPfx := if user_id.length > 8 then ⟨user_id.data.take 8⟩ else user_id
  "user_" ++ userPfx ++ "_" ++ slug

/-- Models `is_user_flashcard`: `flashcard_id.startswith("user_")`. -/
def is_user_flashcard (flashcard_id : String) : Bool :=
  List.isPrefixOf "user_".data flashcard_id.data

/-- Models `extract_user_id_from_flashcard`: `None` unless the value is a user
flashcard id splitting into at least three `_`-separated parts; then the
second part. -/
def extract_user_id_from_flashcard (flashcard_id : String) : Option String :=
  if !is_user_flashcard flashcard_id then none
  else
    match pySplit '_' flashcard_id.data with
    | _ :: p :: _ :: _ => some ⟨p⟩
    | _ => none

/-! ## General list lemmas -/

theorem findSome?_eq_some_of_unique {α β : Type} (f : α → Option β)
    (l : List α) (a : α) (b : β) (ha : a ∈ l) (hfa : f a = some b)
    (hu : ∀ x ∈ l, x ≠ a → f x = none) : l.findSome? f = some b := by
  induction l with
  | nil => cases ha
  | cons x xs ih =>
    rw [List.findSome?_cons]
    by_cases hxa : x = a
    · subst hxa; rw [hfa]
    · rw [hu x (List.mem_cons_self x xs) hxa]
      rcases List.mem_cons.mp ha with h | h
      · exact absurd h.symm hxa
      · exact ih h fun y hy => hu y (List.mem_cons_of_mem x hy)

theorem find?_eq_some_of_unique {α : Type} (p : α → Bool) (l : List α)
    (a : α) (ha : a ∈ l) (hpa : p a = true)
    (hu : ∀ x ∈ l, p x = true → x = a) : l.find? p = some a := by
  induction l with
  | nil => cases ha
  | cons x xs ih =>
    rw [List.find?_cons]
    cases hpx : p x with
    | true => rw [hu x (List.mem_cons_self x xs) hpx]
    | false =>
      rcases List.mem_cons.mp ha with h | h
      · rw [h] at hpa; rw [hpa] at hpx; cases hpx
      · exact ih h fun y hy => hu y (List.mem_cons_of_mem x hy)

theorem filterMap_filter_eq {α β : Type} (p : α → Bool) (f : α → Option β) :
    ∀ l : List α,
      (l.filter p).filterMap f =
        l.filterMap fun a => if p a then f a else none := by
  intro l
  induction l with
  | nil => rfl
  | cons x xs ih =>
    cases hx : p x with
    | true =>
      cases hfx : f x <;>
        simp [List.filter_cons, hx, List.filterMap_cons, hfx, ih]
    | false => simp [List.filter_cons, hx, List.filterMap_cons, ih]

/-! ## Store lemmas -/

theorem fileExists_iff (s : Store) (fn : String) :
    fileExists s fn = true ↔ ∃ e ∈ s, e.filename = fn := by
  simp [fileExists, List.any_eq_true]

theorem findEntry_upsert_self (s : Store) (fn : String) (c : Content)
    (t : Option Nat) : findEntry (upsert s fn c t) fn = some ⟨fn, c, t⟩ := by
  induction s with
  | nil => simp [upsert, findEntry]
  | cons e es ih =>
    by_cases he : e.filename = fn
    · simp [upsert, he, findEntry]
    · simp only [upsert, if_neg he]
      simpa [findEntry, List.find?_cons, he] using ih

theorem findEntry_upsert_other (s : Store) (fn g : String) (c : Content)
    (t : Option Nat) (hg : g ≠ fn) :
    findEntry (upsert s fn c t) g = findEntry s g := by
  have h1 : ¬fn = g := fun h => hg h.symm
  induction s with
  | nil => simp [upsert, findEntry, List.find?_cons, h1]
  | cons e es ih =>
    by_cases he : e.filename = fn
    · have h2 : ¬e.filename = g := by rw [he]; exact h1
      simp [upsert, he, findEntry, List.find?_cons, h1, h2]
    · simp only [upsert, if_neg he]
      by_cases heg : e.filename = g
      · simp [findEntry, List.find?_cons, heg]
      · simpa [findEntry, List.find?_cons, heg] using ih

theorem map_filename_upsert_of_exists (s : Store) (fn : String) (c : Content)
    (t : Option Nat) (h : fileExists s fn = true) :
    (upsert s fn c t).map (·.filename) = s.map (·.filename) := by
  induction s with
  | nil => simp [fileExists] at h
  | cons e es ih =>
    by_cases he : e.filename = fn
    · simp [upsert, he]
    · have h' : fileExists es fn = true := by
        rcases (fileExists_iff _ _).mp h with ⟨x, hx, hfx⟩
        rcases List.mem_cons.mp hx with rfl | hx
        · exact absurd hfx he
        · exact (fileExists_iff _ _).mpr ⟨x, hx, hfx⟩
      simp [upsert, he, ih h']

theorem removeFile_of_not_exists (s : Store) (fn : String)
    (h : fileExists s fn = false) : removeFile s fn = s := by
  rw [removeFile, List.filter_eq_self]
  intro e he
  simp only [Bool.not_eq_true', decide_eq_false_iff_not]
  intro hfe
  rw [Bool.eq_false_iff] at h
  exact h ((fileExists_iff s fn).mpr ⟨e, he, hfe⟩)

theorem fileExists_removeFile_other (s : Store) (fn g : String) (hg : g ≠ fn) :
    fileExists (removeFile s fn) g = fileExists s g := by
  have h1 : ¬fn = g := fun h => hg h.symm
  unfold fileExists removeFile
  induction s with
  | nil => rfl
  | cons e es ih =>
    by_cases he : e.filename = fn
    · have h2 : ¬e.filename = g := by rw [he]; exact h1
      simp [List.filter_cons, he, List.any_cons, h2, h1, ih]
    · simp [List.filter_cons, he, List.any_cons, ih]

theorem exists_of_findSome?_eq_some {α β : Type} (f : α → Option β)
    (l : List α) (b : β) (h : l.findSome? f = some b) :
    ∃ a, a ∈ l ∧ f a = some b := by
  induction l with
  | nil => cases h
  | cons x xs ih =>
    rw [List.findSome?_cons] at h
    cases hfx : f x with
    | some v =>
      exact ⟨x, List.mem_cons_self x xs, by rw [hfx]; rw [hfx] at h; exact h⟩
    | none =>
      rw [hfx] at h
      rcases ih h with ⟨a, ha, hfa⟩
      exact ⟨a, List.mem_cons_of_mem x ha, hfa⟩

/-! ## Catalog collection lemmas -/

theorem extract_filename (doc : FlashcardDocument) :
    (extract_flashcard_metadata doc).filename = doc.filename := by
  cases h : safe_load doc.content <;> simp [extract_flashcard_metadata, h]

/-- The single-pass form of the collector used for reasoning about edits:
one pass over the `.yaml` entries, one over the `.yml` entries. -/
def collectPart (ext : String) (e : Entry) : Option FlashMeta :=
  if endsWithS e.filename ext && !isCatalogName e.filename then
    some (extract_flashcard_metadata (toDoc e))
  else none

theorem collect_eq (s : Store) :
    collect_flashcard_metadata s =
      s.filterMap (collectPart ".yaml") ++ s.filterMap (collectPart ".yml") := by
  unfold collect_flashcard_metadata list_flashcards
  rw [List.map_append, List.filterMap_append,
    List.filterMap_map, List.filterMap_map,
    filterMap_filter_eq, filterMap_filter_eq]
  congr 1 <;>
  · apply List.filterMap_congr
    intro e _
    by_cases h1 : endsWithS e.filename ".yaml" = true <;>
      by_cases h2 : isCatalogName e.filename = true <;>
        by_cases h3 : endsWithS e.filename ".yml" = true <;>
          simp [collectPart, Function.comp, toDoc, h1, h2, h3]

theorem filterMap_upsert_none {β : Type} (q : Entry → Option β) (s : Store)
    (fn : String) (c : Content) (t : Option Nat)
    (hq : ∀ c' t', q ⟨fn, c', t'⟩ = none) :
    (upsert s fn c t).filterMap q = s.filterMap q := by
  induction s with
  | nil => simp [upsert, List.filterMap_cons, hq]
  | cons e es ih =>
    by_cases he : e.filename = fn
    · have hqe : q e = none := by
        rcases e with ⟨f2, c2, t2⟩
        cases he
        exact hq c2 t2
      simp [upsert, he, List.filterMap_cons, hq, hqe]
    · simp only [upsert, if_neg he, List.filterMap_cons]
      cases q e <;> simp [ih]

theorem collect_upsert_catalogName (s : Store) (fn : String) (c : Content)
    (t : Option Nat) (h : isCatalogName fn = true) :
    collect_flashcard_metadata (upsert s fn c t) =
      collect_flashcard_metadata s := by
  rw [collect_eq, collect_eq,
    filterMap_upsert_none _ _ _ _ _ (by intro c' t'; simp [collectPart, h]),
    filterMap_upsert_none _ _ _ _ _ (by intro c' t'; simp [collectPart, h])]

/-! ## Concrete fixtures used by witnesses and counterexamples -/

/-- A well-formed single-choice card carrying an explicit id. -/
def sampleCard : Card :=
  ⟨some "c1", some "Q", some "single", some "A", none, none⟩

/-- A fully valid flashcard set declaring id `i`. -/
def sampleData (i : String) : YamlData :=
  ⟨some i, some "au", some "ti", some "de", some "2024-01-01", some "en",
   none, none, some [], some [], some (.flist [.obj sampleCard]), false⟩

/-- A one-document store: `a.yml` declaring id `a`. -/
def wStore : Store := [⟨"a.yml", .yaml (sampleData "a"), none⟩]

/-! ## C8: catalog self-exclusion -/

/-- C8 (confirmed): for every state of the document collection, the
generated catalog's metadata listing contains no entry for the catalog file
itself, under either the `.yaml` or the `.yml` form of its well-known
filename. -/
theorem catalog_metadata_excludes_catalog_file (s : Store) (m : FlashMeta)
    (h : m ∈ collect_flashcard_metadata s) :
    m.filename ≠ "flashcards_catalog.yaml" ∧
      m.filename ≠ "flashcards_catalog.yml" := by
  unfold collect_flashcard_metadata at h
  rcases List.mem_filterMap.mp h with ⟨d, _, hval⟩
  by_cases hc : isCatalogName d.filename = true
  · rw [if_pos hc] at hval; cases hval
  · rw [if_neg hc] at hval
    injection hval with hval
    subst hval
    rw [extract_filename]
    refine ⟨fun hx => ?_, fun hx => ?_⟩ <;> simp [isCatalogName, hx] at hc

/-- C8 witness: the single stored set's metadata row is in the collection
and carries neither catalog filename. -/
theorem catalog_metadata_excludes_catalog_file_witness :
    (extract_flashcard_metadata (toDoc ⟨"a.yml", .yaml (sampleData "a"), none⟩)).filename ≠
        "flashcards_catalog.yaml" ∧
      (extract_flashcard_metadata (toDoc ⟨"a.yml", .yaml (sampleData "a"), none⟩)).filename ≠
        "flashcards_catalog.yml" :=
  catalog_metadata_excludes_catalog_file wStore _ (by decide)

/-! ## C9: idempotent catalog generation -/

/-- C9 (confirmed): generating the catalog twice with no intervening
mutation yields the same `total` and the same metadata rows; only the
`generatedAt` stamps (`now1`, `now2`) may differ. -/
theorem catalog_generation_idempotent (s : Store) (now1 now2 : String) :
    (generate_flashcard_catalog now2
        (generate_flashcard_catalog now1 s).2).1.total =
      (generate_flashcard_catalog now1 s).1.total ∧
    (generate_flashcard_catalog now2
        (generate_flashcard_catalog now1 s).2).1.sets =
      (generate_flashcard_catalog now1 s).1.sets := by
  have h := collect_upsert_catalogName s CATALOG_FILENAME
    (.catalog ⟨now1, (collect_flashcard_metadata s).length,
      collect_flashcard_metadata s⟩) none (by decide)
  simp [generate_flashcard_catalog, save_catalog, h]

/-! ## C1: catalog regeneration after mutations -/

theorem generated_catalog_is_fresh (s : Store) (now : String) :
    lookupContent (generate_flashcard_catalog now s).2 CATALOG_FILENAME =
      some (.catalog (generate_flashcard_catalog now
        (generate_flashcard_catalog now s).2).1) := by
  have h := collect_upsert_catalogName s CATALOG_FILENAME
    (.catalog ⟨now, (collect_flashcard_metadata s).length,
      collect_flashcard_metadata s⟩) none (by decide)
  simp [generate_flashcard_catalog, save_catalog, lookupContent,
    findEntry_upsert_self, h]

/-- C1 (corrected): after every successful delete of a global flashcard the
catalog is regenerated, so the persisted catalog equals a fresh regeneration
(same timestamp) from the post-mutation document collection. The update and
upload paths perform no such regeneration (see the counterexample). -/
theorem delete_regenerates_catalog (s : Store) (fid now : String)
    (fl : List String)
    (h : (delete_flashcard_endpoint s fid now).1 = .deleted fl) :
    lookupContent (delete_flashcard_endpoint s fid now).2 CATALOG_FILENAME =
      some (.catalog (generate_flashcard_catalog now
        (delete_flashcard_endpoint s fid now).2).1) := by
  unfold delete_flashcard_endpoint at h ⊢
  cases hfn : resolve_filename s fid with
  | none => rw [hfn] at h; simp at h
  | some fn =>
    rw [hfn] at h
    by_cases hemp : (delete_resolved s fid fn).2 = []
    · simp [hemp] at h
    · simpa [hemp] using
        generated_catalog_is_fresh (delete_resolved s fid fn).1 now

/-- C1 witness: deleting the only stored set succeeds and leaves a persisted
catalog equal to a fresh regeneration over the now-empty collection. -/
theorem delete_regenerates_catalog_witness :
    lookupContent (delete_flashcard_endpoint wStore "a" "T").2
        CATALOG_FILENAME =
      some (.catalog (generate_flashcard_catalog "T"
        (delete_flashcard_endpoint wStore "a" "T").2).1) :=
  delete_regenerates_catalog wStore "a" "T" ["a.yml"] (by decide)

/-- The update request used by the C1 counterexample: a valid in-place
update of the stored set `a`. -/
def updReq1 : FlashcardUpdateRequest := ⟨.yaml (sampleData "a"), "", none⟩

/-- C1 counterexample: a successful update (a mutating operation on the
global namespace) after which no catalog document is persisted at all, even
though a fresh regeneration from the post-mutation collection would list one
set — so the persisted catalog does not equal a fresh regeneration, refuting
the claim for the update path. -/
theorem update_does_not_regenerate_catalog :
    (update_flashcard wStore "a" updReq1 (some 5)).1 =
        .updated "a.yml" false [] ∧
      lookupContent (update_flashcard wStore "a" updReq1 (some 5)).2
          CATALOG_FILENAME = none ∧
      collect_flashcard_metadata
          (update_flashcard wStore "a" updReq1 (some 5)).2 ≠ [] :=
  ⟨by decide, by decide, by decide⟩

/-! ## C5: save/overwrite semantics -/

/-- C5 (confirmed): when the target filename exists, a save without
overwrite fails with `AlreadyExists` on both backends and hands back the
store untouched (the local backend raises before writing, the S3 backend
raises after the `head_object` probe); a save with overwrite succeeds,
fully replacing the target entry's content and leaving every other entry
unchanged. -/
theorem save_overwrite_semantics (s : Store) (fn : String) (c : Content)
    (t : Option Nat) (h : fileExists s fn = true) :
    save_flashcard s fn c false t = (s, .alreadyExists) ∧
    s3_save_flashcard s fn c false = (s, .alreadyExists) ∧
    (save_flashcard s fn c true t).2 = .ok ⟨pathStem fn, fn, c, none⟩ ∧
    lookupContent (save_flashcard s fn c true t).1 fn = some c ∧
    (∀ g, g ≠ fn →
      findEntry (save_flashcard s fn c true t).1 g = findEntry s g) ∧
    (s3_save_flashcard s fn c true).2 = .ok ⟨pathStem fn, fn, c, none⟩ ∧
    lookupContent (s3_save_flashcard s fn c true).1 fn = some c ∧
    (∀ g, g ≠ fn →
      findEntry (s3_save_flashcard s fn c true).1 g = findEntry s g) := by
  refine ⟨?_, ?_, ?_, ?_, ?_, ?_, ?_, ?_⟩
  · simp [save_flashcard, h]
  · simp [s3_save_flashcard, h]
  · simp [save_flashcard]
  · simp [save_flashcard, lookupContent, findEntry_upsert_self]
  · intro g hg
    simp only [save_flashcard, Bool.not_true, Bool.and_false, if_neg]
    exact findEntry_upsert_other s fn g c t hg
  · simp [s3_save_flashcard]
  · simp [s3_save_flashcard, lookupContent, findEntry_upsert_self]
  · intro g hg
    simp only [s3_save_flashcard, Bool.not_true, Bool.false_and, if_neg]
    exact findEntry_upsert_other s fn g c none hg

/-- C5 witness: overwriting the existing `a.yml` replaces its content;
without overwrite the save is refused and the store is returned as-is. -/
theorem save_overwrite_semantics_witness :
    save_flashcard wStore "a.yml" (.yaml (sampleData "b")) false (some 9) =
        (wStore, .alreadyExists) ∧
      lookupContent
          (save_flashcard wStore "a.yml" (.yaml (sampleData "b")) true
            (some 9)).1 "a.yml" =
        some (.yaml (sampleData "b")) := by
  have hw := save_overwrite_semantics wStore "a.yml" (.yaml (sampleData "b"))
    (some 9) (by decide)
  exact ⟨hw.1, hw.2.2.2.1⟩

/-! ## C7: delete across both extensions -/

theorem append_yaml_ne_yml (fid : String) :
    fid ++ ".yaml" ≠ fid ++ ".yml" := by
  intro h
  have h2 : (fid ++ ".yaml").data = (fid ++ ".yml").data := by rw [h]
  rw [String.data_append, String.data_append] at h2
  exact absurd (List.append_cancel_left h2) (by decide)

theorem removeFile_removeFile (s : Store) (y m : String) :
    removeFile (removeFile s y) m =
      s.filter fun e =>
        !(decide (e.filename = y) || decide (e.filename = m)) := by
  unfold removeFile
  rw [List.filter_filter]
  apply List.filter_congr
  intro e _
  by_cases hy : e.filename = y <;> by_cases hm : e.filename = m <;>
    simp [hy, hm]

theorem delete_store_eq (s : Store) (fid : String) :
    (delete_flashcard s fid).1 =
      removeFile (removeFile s (fid ++ ".yaml")) (fid ++ ".yml") := by
  have hs : fileExists (removeFile s (fid ++ ".yaml")) (fid ++ ".yml") =
      fileExists s (fid ++ ".yml") :=
    fileExists_removeFile_other s (fid ++ ".yaml") (fid ++ ".yml")
      (Ne.symm (append_yaml_ne_yml fid))
  unfold delete_flashcard
  cases h1 : fileExists s (fid ++ ".yaml") with
  | true =>
    cases h2 : fileExists s (fid ++ ".yml") with
    | true => simp [h1, hs, h2]
    | false =>
      simp only [h1, if_true, hs, h2, Bool.false_eq_true, if_false]
      exact (removeFile_of_not_exists _ _ (by rw [hs, h2])).symm
  | false =>
    rw [removeFile_of_not_exists s _ h1]
    cases h2 : fileExists s (fid ++ ".yml") with
    | true => simp [h1, h2]
    | false =>
      simp only [h1, Bool.false_eq_true, if_false, h2]
      exact (removeFile_of_not_exists s _ h2).symm

theorem delete_deleted_eq (s : Store) (fid : String) :
    (delete_flashcard s fid).2 =
      (if fileExists s (fid ++ ".yaml") then [fid ++ ".yaml"] else []) ++
        (if fileExists s (fid ++ ".yml") then [fid ++ ".yml"] else []) := by
  have hs : fileExists (removeFile s (fid ++ ".yaml")) (fid ++ ".yml") =
      fileExists s (fid ++ ".yml") :=
    fileExists_removeFile_other s (fid ++ ".yaml") (fid ++ ".yml")
      (Ne.symm (append_yaml_ne_yml fid))
  unfold delete_flashcard
  cases h1 : fileExists s (fid ++ ".yaml") with
  | true =>
    cases h2 : fileExists s (fid ++ ".yml") with
    | true => simp [h1, hs, h2]
    | false => simp [h1, hs, h2]
  | false =>
    cases h2 : fileExists s (fid ++ ".yml") with
    | true => simp [h1, h2]
    | false => simp [h1, h2]

/-- C7 (corrected): the local backend's delete removes exactly the entries
named `<id>.yaml`/`<id>.yml` and reports exactly the removed names (both,
when both exist); the S3 backend removes the same entries but — since S3
deletes succeed whether or not the key exists — always reports both
candidate filenames. -/
theorem delete_completeness (s : Store) (fid : String) :
    ((delete_flashcard s fid).1 =
        s.filter fun e =>
          !(decide (e.filename = fid ++ ".yaml") ||
            decide (e.filename = fid ++ ".yml"))) ∧
    ((delete_flashcard s fid).2 =
        (if fileExists s (fid ++ ".yaml") then [fid ++ ".yaml"] else []) ++
          (if fileExists s (fid ++ ".yml") then [fid ++ ".yml"] else [])) ∧
    (fileExists s (fid ++ ".yaml") = true →
      fileExists s (fid ++ ".yml") = true →
      (delete_flashcard s fid).2 = [fid ++ ".yaml", fid ++ ".yml"]) ∧
    ((s3_delete_flashcard s fid).1 =
        s.filter fun e =>
          !(decide (e.filename = fid ++ ".yaml") ||
            decide (e.filename = fid ++ ".yml"))) ∧
    (s3_delete_flashcard s fid).2 = [fid ++ ".yaml", fid ++ ".yml"] := by
  refine ⟨?_, delete_deleted_eq s fid, ?_, ?_, rfl⟩
  · rw [delete_store_eq, removeFile_removeFile]
  · intro h1 h2
    rw [delete_deleted_eq, h1, h2]
    rfl
  · show removeFile (removeFile s (fid ++ ".yaml")) (fid ++ ".yml") = _
    rw [removeFile_removeFile]

/-- A malformed duplicate pair: the same id stored under both extensions. -/
def dupStore : Store :=
  [⟨"q.yaml", .yaml (sampleData "q"), none⟩, ⟨"q.yml", .malformed, none⟩]

/-- C7 witness: with both `q.yaml` and `q.yml` present, the local delete
removes both and reports both filenames. -/
theorem delete_completeness_witness :
    (delete_flashcard dupStore "q").2 = ["q.yaml", "q.yml"] :=
  (delete_completeness dupStore "q").2.2.1 (by decide) (by decide)

/-- C7 counterexample: on an empty S3 store, deleting id `quiz` removes
nothing yet reports both candidate filenames — the returned list is not the
list of removed filenames, refuting the claim for the S3 backend. -/
theorem s3_delete_reports_unremoved_filenames :
    (s3_delete_flashcard [] "quiz").1 = [] ∧
      (s3_delete_flashcard [] "quiz").2 = ["quiz.yaml", "quiz.yml"] :=
  ⟨rfl, rfl⟩

/-! ## C3: card-id synthesis -/

/-- The card-id formula as the specification words it: the first three
alphanumeric characters of the set id, lowercased, right-padded with `x` to
length three, followed by the 1-based index zero-padded to three digits. -/
def specCardId (sid : String) (i : Nat) : String :=
  let first3 := (sid.data.filter Char.isAlphanum).take 3
  ⟨first3.map Char.toLower ++ List.replicate (3 - first3.length) 'x'⟩ ++
    zfill3 (toString (i + 1))

/-- C3 (confirmed): card-id synthesis is exactly the deterministic function
of the set id and the zero-based card index that the claim describes, and it
yields the three quoted examples. -/
theorem card_id_synthesis :
    (∀ sid i, generate_card_id sid i = specCardId sid i) ∧
      generate_card_id "ab" 0 = "abx001" ∧
      generate_card_id "123-test" 4 = "123005" ∧
      generate_card_id "three-states" 0 = "thr001" := by
  refine ⟨fun sid i => ?_, by decide, by decide, by decide⟩
  unfold generate_card_id specCardId
  simp [List.length_map]

/-! ## C10: user-flashcard id round trip -/

theorem isPrefixOf_append (l r : List Char) :
    List.isPrefixOf l (l ++ r) = true := by
  induction l with
  | nil => simp [List.isPrefixOf]
  | cons a as ih => simp [List.isPrefixOf, ih]

theorem pySplit_ne_nil (sep : Char) (l : List Char) : pySplit sep l ≠ [] := by
  induction l with
  | nil => simp [pySplit]
  | cons c cs ih =>
    by_cases hc : c = sep
    · simp [pySplit, hc]
    · simp only [pySplit, if_neg hc]
      cases hr : pySplit sep cs with
      | nil => simp
      | cons h t => simp

theorem pySplit_append_sep (sep : Char) (l1 l2 : List Char)
    (h : ∀ c ∈ l1, c ≠ sep) :
    pySplit sep (l1 ++ sep :: l2) = l1 :: pySplit sep l2 := by
  induction l1 with
  | nil => simp [pySplit]
  | cons c cs ih =>
    have hc : c ≠ sep := h c (List.mem_cons_self c cs)
    have ih' := ih fun x hx => h x (List.mem_cons_of_mem c hx)
    simp only [List.cons_append, pySplit, List.append_eq, if_neg hc, ih']

/-- C10 (confirmed): for every user id containing no underscore and every
non-empty slug, the generated user flashcard id is recognized as
user-owned, and extracting the user id from it returns the first eight
characters of the user id (the user id itself when it is that short). -/
theorem user_flashcard_id_roundtrip (uid slug : String)
    (hu : '_' ∉ uid.data) (hs : slug ≠ "") :
    extract_user_id_from_flashcard (generate_user_flashcard_id uid slug) =
        some ⟨uid.data.take 8⟩ ∧
      is_user_flashcard (generate_user_flashcard_id uid slug) = true := by
  have hp : (if uid.length > 8 then (⟨uid.data.take 8⟩ : String) else uid).data
      = uid.data.take 8 := by
    by_cases h8 : uid.length > 8
    · simp [h8]
    · have hle : uid.data.length ≤ 8 := Nat.le_of_not_lt h8
      simp [h8, List.take_of_length_le hle]
  set p : String := if uid.length > 8 then (⟨uid.data.take 8⟩ : String) else uid
    with hpdef
  have hgen : generate_user_flashcard_id uid slug =
      "user_" ++ p ++ "_" ++ slug := rfl
  have hdata : (generate_user_flashcard_id uid slug).data =
      "user".data ++ '_' :: (p.data ++ '_' :: slug.data) := by
    rw [hgen, String.data_append, String.data_append, String.data_append]
    simp [List.append_assoc]
  have hpre : (generate_user_flashcard_id uid slug).data =
      "user_".data ++ (p.data ++ "_".data ++ slug.data) := by
    rw [hgen, String.data_append, String.data_append, String.data_append]
    simp [List.append_assoc]
  have huser : is_user_flashcard (generate_user_flashcard_id uid slug)
      = true := by
    unfold is_user_flashcard
    rw [hpre]
    exact isPrefixOf_append _ _
  refine ⟨?_, huser⟩
  have hnop : ∀ c ∈ p.data, c ≠ '_' := by
    intro c hc
    rw [hp] at hc
    exact fun hce => hu (hce ▸ List.take_subset 8 uid.data hc)
  have hsplit : pySplit '_' (generate_user_flashcard_id uid slug).data =
      "user".data :: p.data :: pySplit '_' slug.data := by
    rw [hdata, pySplit_append_sep '_' _ _ (by decide),
      pySplit_append_sep '_' _ _ hnop]
  obtain ⟨z, zs, hz⟩ : ∃ z zs, pySplit '_' slug.data = z :: zs := by
    cases hzz : pySplit '_' slug.data with
    | nil => exact absurd hzz (pySplit_ne_nil _ _)
    | cons z zs => exact ⟨z, zs, rfl⟩
  unfold extract_user_id_from_flashcard
  rw [huser, hsplit, hz]
  simp [hp]

/-- C10 witness: a concrete 10-character user id and slug round-trip to the
8-character user prefix. -/
theorem user_flashcard_id_roundtrip_witness :
    extract_user_id_from_flashcard
        (generate_user_flashcard_id "abcdefghij" "python-basics") =
        some "abcdefgh" ∧
      is_user_flashcard
        (generate_user_flashcard_id "abcdefghij" "python-basics") = true := by
  have hw := user_flashcard_id_roundtrip "abcdefghij" "python-basics"
    (by decide) (by decide)
  exact ⟨hw.1.trans (by decide), hw.2⟩

/-! ## Lookup machinery: listing membership and the fallback scan -/

theorem toDoc_inj {a b : Entry} (h : toDoc a = toDoc b) : a = b := by
  cases a; cases b
  simp only [toDoc, FlashcardDocument.mk.injEq] at h
  simp [h.2.1, h.2.2.1, h.2.2.2]

theorem toDoc_mem_list (s : Store) (e : Entry) (he : e ∈ s)
    (hext : endsWithS e.filename ".yaml" = true ∨
      endsWithS e.filename ".yml" = true) :
    toDoc e ∈ list_flashcards s := by
  unfold list_flashcards
  rcases hext with h | h
  · exact List.mem_map_of_mem toDoc
      (List.mem_append_left _ (List.mem_filter.mpr ⟨he, h⟩))
  · exact List.mem_map_of_mem toDoc
      (List.mem_append_right _ (List.mem_filter.mpr ⟨he, h⟩))

theorem mem_list_flashcards (s : Store) (d : FlashcardDocument)
    (hd : d ∈ list_flashcards s) : ∃ e ∈ s, d = toDoc e := by
  unfold list_flashcards at hd
  rcases List.mem_map.mp hd with ⟨e, he, rfl⟩
  rcases List.mem_append.mp he with h | h
  · exact ⟨e, (List.mem_filter.mp h).1, rfl⟩
  · exact ⟨e, (List.mem_filter.mp h).1, rfl⟩

theorem scan_match_of (did : String) (e : Entry) (d : YamlData)
    (hcat : e.filename ≠ CATALOG_FILENAME)
    (hp : safe_load e.content = some d) (ht : yamlTruthy d = true)
    (hid : d.id = some did) :
    scan_match did (toDoc e) = some e.filename := by
  simp [scan_match, toDoc, hcat, hp, ht, hid]

theorem scan_match_eq_filename (fid : String) (d : FlashcardDocument)
    (x : String) (h : scan_match fid d = some x) : x = d.filename := by
  by_cases hc : d.filename = CATALOG_FILENAME
  · simp [scan_match, hc] at h
  · simp only [scan_match, if_neg hc] at h
    cases hl : safe_load d.content with
    | none => simp only [hl] at h; cases h
    | some data =>
      simp only [hl] at h
      by_cases hm : (yamlTruthy data && decide (data.id = some fid)) = true
      · rw [if_pos hm] at h
        injection h with h
        exact h.symm
      · rw [if_neg hm] at h; cases h

theorem scan_finds_unique (s : Store) (e : Entry) (did : String)
    (hmem : e ∈ s)
    (hext : endsWithS e.filename ".yaml" = true ∨
      endsWithS e.filename ".yml" = true)
    (hself : scan_match did (toDoc e) = some e.filename)
    (huniq : ∀ x ∈ s, x ≠ e → scan_match did (toDoc x) = none) :
    find_flashcard_filename_by_id s did = some e.filename := by
  unfold find_flashcard_filename_by_id
  apply findSome?_eq_some_of_unique _ _ (toDoc e) _
    (toDoc_mem_list s e hmem hext) hself
  intro d hd hde
  rcases mem_list_flashcards s d hd with ⟨x, hx, rfl⟩
  exact huniq x hx fun hxe => hde (by rw [hxe])

theorem findEntry_eq_of_nodup (s : Store) (e : Entry) (hmem : e ∈ s)
    (hnd : (s.map (·.filename)).Nodup) : findEntry s e.filename = some e := by
  apply find?_eq_some_of_unique _ _ e hmem (by simp)
  intro x hx hpx
  exact List.inj_on_of_nodup_map hnd hx hmem (by simpa using hpx)

theorem refetch_by_filename (s : Store) (e : Entry) (hmem : e ∈ s)
    (hext : endsWithS e.filename ".yaml" = true ∨
      endsWithS e.filename ".yml" = true)
    (hnd : (s.map (·.filename)).Nodup) :
    (list_flashcards s).find? (fun d => decide (d.filename = e.filename)) =
      some (toDoc e) := by
  apply find?_eq_some_of_unique _ _ (toDoc e) (toDoc_mem_list s e hmem hext)
    (by simp [toDoc])
  intro d hd hdp
  rcases mem_list_flashcards s d hd with ⟨x, hx, rfl⟩
  have hfx : x.filename = e.filename := by simpa [toDoc] using hdp
  rw [List.inj_on_of_nodup_map hnd hx hmem hfx]

theorem get_flashcard_of_misses (s : Store) (fid : String)
    (h1 : fileExists s (fid ++ ".yaml") = false)
    (h2 : fileExists s (fid ++ ".yml") = false) :
    get_flashcard s fid = none := by
  simp [get_flashcard, get_flashcard_path, h1, h2]

theorem get_flashcard_document_of_misses (s : Store) (fid : String)
    (h1 : fileExists s (fid ++ ".yaml") = false)
    (h2 : fileExists s (fid ++ ".yml") = false) :
    get_flashcard_document s fid = none := by
  by_cases hv : validId fid <;>
    simp [get_flashcard_document, hv, get_flashcard_of_misses s fid h1 h2]

/-- The whole fallback path of the endpoint, under the scenario hypotheses:
phase 1 misses and the scan uniquely matches `e`. -/
theorem endpoint_fallback (s : Store) (e : Entry) (d : YamlData)
    (did : String) (hmem : e ∈ s)
    (hext : endsWithS e.filename ".yaml" = true ∨
      endsWithS e.filename ".yml" = true)
    (hparse : safe_load e.content = some d) (ht : yamlTruthy d = true)
    (hid : d.id = some did)
    (hno1 : fileExists s (did ++ ".yaml") = false)
    (hno2 : fileExists s (did ++ ".yml") = false)
    (hcat : e.filename ≠ CATALOG_FILENAME)
    (huniq : ∀ x ∈ s, x ≠ e → scan_match did (toDoc x) = none)
    (hnd : (s.map (·.filename)).Nodup) :
    get_flashcard_endpoint s did = some (toDoc e) := by
  unfold get_flashcard_endpoint
  simp only [get_flashcard_document_of_misses s did hno1 hno2,
    scan_finds_unique s e did hmem hext
      (scan_match_of did e d hcat hparse ht hid) huniq]
  exact refetch_by_filename s e hmem hext hnd

/-! ## Stem and extension lemmas -/

theorem isSuffixOf_append (l r : List Char) :
    List.isSuffixOf l (r ++ l) = true := by
  unfold List.isSuffixOf
  rw [List.reverse_append]
  exact isPrefixOf_append _ _

theorem endsWithS_append (st ext : String) :
    endsWithS (st ++ ext) ext = true := by
  unfold endsWithS
  rw [String.data_append]
  exact isSuffixOf_append _ _

theorem validId_ne_empty (st : String) (h : validId st = true) : st ≠ "" := by
  intro he
  subst he
  simp [validId] at h

theorem pathStem_append_yaml (st : String) (h : st ≠ "") :
    pathStem (st ++ ".yaml") = st := by
  obtain ⟨l⟩ := st
  have hl : l ≠ [] := fun hn => h (by rw [hn])
  show pathStem ⟨l ++ ".yaml".data⟩ = ⟨l⟩
  unfold pathStem
  have hrev : (String.mk (l ++ ".yaml".data)).data.reverse =
      'l' :: 'm' :: 'a' :: 'y' :: '.' :: l.reverse := by
    show (l ++ ".yaml".data).reverse = _
    rw [List.reverse_append]
    rfl
  rw [hrev]
  have hdrop : dropExtRev ('l' :: 'm' :: 'a' :: 'y' :: '.' :: l.reverse) =
      some l.reverse := rfl
  rw [hdrop]
  cases hlr : l.reverse with
  | nil => exact absurd (List.reverse_eq_nil_iff.mp hlr) hl
  | cons a as =>
    simp only
    rw [← hlr, List.reverse_reverse]

theorem pathStem_append_yml (st : String) (h : st ≠ "") :
    pathStem (st ++ ".yml") = st := by
  obtain ⟨l⟩ := st
  have hl : l ≠ [] := fun hn => h (by rw [hn])
  show pathStem ⟨l ++ ".yml".data⟩ = ⟨l⟩
  unfold pathStem
  have hrev : (String.mk (l ++ ".yml".data)).data.reverse =
      'l' :: 'm' :: 'y' :: '.' :: l.reverse := by
    show (l ++ ".yml".data).reverse = _
    rw [List.reverse_append]
    rfl
  rw [hrev]
  have hdrop : dropExtRev ('l' :: 'm' :: 'y' :: '.' :: l.reverse) =
      some l.reverse := rfl
  rw [hdrop]
  cases hlr : l.reverse with
  | nil => exact absurd (List.reverse_eq_nil_iff.mp hlr) hl
  | cons a as =>
    simp only
    rw [← hlr, List.reverse_reverse]

/-- The storage fast path at the filename stem: when no other entry shares
the stem, probing `<stem>.yaml` then `<stem>.yml` returns this entry. -/
theorem get_flashcard_fast (s : Store) (e : Entry) (st : String)
    (hmem : e ∈ s) (hnd : (s.map (·.filename)).Nodup)
    (hsplit : e.filename = st ++ ".yaml" ∨ e.filename = st ++ ".yml")
    (hstem : ∀ x ∈ s, x = e ∨ pathStem x.filename ≠ st)
    (hne : st ≠ "") :
    get_flashcard s st = some ⟨st, e.filename, e.content, e.mtime⟩ := by
  rcases hsplit with hy | hm
  · have hex : fileExists s (st ++ ".yaml") = true :=
      (fileExists_iff _ _).mpr ⟨e, hmem, hy⟩
    have hpath : get_flashcard_path s st = some (st ++ ".yaml") := by
      simp [get_flashcard_path, hex]
    unfold get_flashcard
    simp only [hpath, ← hy, findEntry_eq_of_nodup s e hmem hnd]
  · have hnoy : fileExists s (st ++ ".yaml") = false := by
      cases hf : fileExists s (st ++ ".yaml") with
      | false => rfl
      | true =>
        rcases (fileExists_iff _ _).mp hf with ⟨x, hx, hfx⟩
        rcases hstem x hx with rfl | hst
        · rw [hm] at hfx
          exact absurd hfx (Ne.symm (append_yaml_ne_yml st))
        · exact absurd (by rw [hfx]; exact pathStem_append_yaml st hne) hst
    have hex : fileExists s (st ++ ".yml") = true :=
      (fileExists_iff _ _).mpr ⟨e, hmem, hm⟩
    have hpath : get_flashcard_path s st = some (st ++ ".yml") := by
      simp [get_flashcard_path, hnoy, hex]
    unfold get_flashcard
    simp only [hpath, ← hm, findEntry_eq_of_nodup s e hmem hnd]

/-! ## C6: the exists check is phase-1 only -/

/-- C6 (confirmed): for a stored document whose declared content id `did`
differs from its filename stem and is reachable only through the phase-2
scan (no file is named `<did>.yaml`/`<did>.yml`, the document is not the
catalog and is the unique scan match), `flashcard_exists did` is `false`
even though the endpoint lookup returns the document via the fallback scan;
and for every id, `flashcard_exists` is exactly the filename-based probe. -/
theorem exists_is_phase1_only (s : Store) (e : Entry) (d : YamlData)
    (did : String) (hmem : e ∈ s)
    (hext : endsWithS e.filename ".yaml" = true ∨
      endsWithS e.filename ".yml" = true)
    (hparse : safe_load e.content = some d) (ht : yamlTruthy d = true)
    (hid : d.id = some did)
    (hstem : pathStem e.filename ≠ did)
    (hno1 : fileExists s (did ++ ".yaml") = false)
    (hno2 : fileExists s (did ++ ".yml") = false)
    (hcat : e.filename ≠ CATALOG_FILENAME)
    (huniq : ∀ x ∈ s, x ≠ e → scan_match did (toDoc x) = none)
    (hnd : (s.map (·.filename)).Nodup) :
    flashcard_exists s did = false ∧
      get_flashcard_endpoint s did = some (toDoc e) ∧
      ∀ i, flashcard_exists s i =
        (fileExists s (i ++ ".yaml") || fileExists s (i ++ ".yml")) := by
  refine ⟨?_,
    endpoint_fallback s e d did hmem hext hparse ht hid hno1 hno2 hcat huniq
      hnd, ?_⟩
  · simp [flashcard_exists, get_flashcard_path, hno1, hno2]
  · intro i
    cases h1 : fileExists s (i ++ ".yaml") <;>
      cases h2 : fileExists s (i ++ ".yml") <;>
        simp [flashcard_exists, get_flashcard_path, h1, h2]

/-- A store whose only document is reachable by content id solely through
the scan: the filename stem `Chapter9` differs from the declared id. -/
def scanStore : Store :=
  [⟨"Chapter9.yml", .yaml (sampleData "chapter9quiz"), none⟩]

/-- C6 witness: in the concrete store, `flashcard_exists` misses the
declared id that the endpoint lookup resolves, and the exists-check equals
the filename probe at a concrete id. -/
theorem exists_is_phase1_only_witness :
    flashcard_exists scanStore "chapter9quiz" = false ∧
      get_flashcard_endpoint scanStore "chapter9quiz" =
        some (toDoc ⟨"Chapter9.yml", .yaml (sampleData "chapter9quiz"),
          none⟩) ∧
      flashcard_exists scanStore "Chapter9" =
        (fileExists scanStore "Chapter9.yaml" ||
          fileExists scanStore "Chapter9.yml") := by
  have hw := exists_is_phase1_only scanStore
    ⟨"Chapter9.yml", .yaml (sampleData "chapter9quiz"), none⟩
    (sampleData "chapter9quiz") "chapter9quiz" (by decide) (by decide)
    (by decide) (by decide) (by decide) (by decide) (by decide) (by decide)
    (by decide) (by decide) (by decide)
  exact ⟨hw.1, hw.2.1, hw.2.2 "Chapter9"⟩

/-! ## C2: two-phase lookup -/

/-- C2 (corrected): under the claim's hypotheses plus the amendments the
counterexample forces — the stem is unique among the stored stems, matches
the id pattern, and the document is not the catalog file — the endpoint
lookup by declared id returns the document through the fallback scan and
the lookup by filename stem returns the same document through the fast
path. -/
theorem two_phase_lookup (s : Store) (e : Entry) (d : YamlData)
    (did st : String) (hmem : e ∈ s)
    (hsplit : e.filename = st ++ ".yaml" ∨ e.filename = st ++ ".yml")
    (hstv : validId st = true)
    (hparse : safe_load e.content = some d) (ht : yamlTruthy d = true)
    (hid : d.id = some did)
    (hne : did ≠ st)
    (hno1 : fileExists s (did ++ ".yaml") = false)
    (hno2 : fileExists s (did ++ ".yml") = false)
    (hcat : e.filename ≠ CATALOG_FILENAME)
    (huniq : ∀ x ∈ s, x ≠ e → scan_match did (toDoc x) = none)
    (hstem : ∀ x ∈ s, x = e ∨ pathStem x.filename ≠ st)
    (hnd : (s.map (·.filename)).Nodup) :
    get_flashcard_endpoint s did =
        some ⟨st, e.filename, e.content, e.mtime⟩ ∧
      get_flashcard_endpoint s st =
        some ⟨st, e.filename, e.content, e.mtime⟩ := by
  have hne' : st ≠ "" := validId_ne_empty st hstv
  have hstem_e : pathStem e.filename = st := by
    rcases hsplit with hy | hm
    · rw [hy]; exact pathStem_append_yaml st hne'
    · rw [hm]; exact pathStem_append_yml st hne'
  have hext : endsWithS e.filename ".yaml" = true ∨
      endsWithS e.filename ".yml" = true := by
    rcases hsplit with hy | hm
    · exact Or.inl (by rw [hy]; exact endsWithS_append st ".yaml")
    · exact Or.inr (by rw [hm]; exact endsWithS_append st ".yml")
  constructor
  · rw [endpoint_fallback s e d did hmem hext hparse ht hid hno1 hno2 hcat
      huniq hnd]
    simp [toDoc, hstem_e]
  · have hdoc : get_flashcard_document s st =
        some ⟨st, e.filename, e.content, e.mtime⟩ := by
      unfold get_flashcard_document
      rw [hstv]
      simp only [Bool.not_true, Bool.false_eq_true, if_false]
      exact get_flashcard_fast s e st hmem hnd hsplit hstem hne'
    unfold get_flashcard_endpoint
    simp only [hdoc]

/-- C2 witness: in `scanStore`, lookup by the declared id and lookup by the
stem both return the stored document. -/
theorem two_phase_lookup_witness :
    get_flashcard_endpoint scanStore "chapter9quiz" =
        some ⟨"Chapter9", "Chapter9.yml",
          .yaml (sampleData "chapter9quiz"), none⟩ ∧
      get_flashcard_endpoint scanStore "Chapter9" =
        some ⟨"Chapter9", "Chapter9.yml",
          .yaml (sampleData "chapter9quiz"), none⟩ :=
  two_phase_lookup scanStore
    ⟨"Chapter9.yml", .yaml (sampleData "chapter9quiz"), none⟩
    (sampleData "chapter9quiz") "chapter9quiz" "Chapter9" (by decide)
    (by decide) (by decide) (by decide) (by decide) (by decide) (by decide)
    (by decide) (by decide) (by decide) (by decide) (by decide) (by decide)

/-- A store holding the same stem under both extensions, with distinct
declared ids — the duplicate-stem state the claim does not exclude. -/
def cexDupStemStore : Store :=
  [⟨"foo.yaml", .yaml (sampleData "a1"), none⟩,
   ⟨"foo.yml", .yaml (sampleData "b1"), none⟩]

/-- C2 counterexample: the `foo.yml` document satisfies the claim's stated
preconditions (its stem `foo` differs from its declared id `b1`, and `b1`
differs from the other document's declared id `a1` and stem `foo`), lookup
by the declared id returns it via the scan, yet lookup by the stem returns
the `foo.yaml` document instead — not the same document. -/
theorem stem_lookup_differs_from_declared_lookup :
    pathStem "foo.yml" = "foo" ∧
      (sampleData "b1").id = some "b1" ∧
      get_flashcard_endpoint cexDupStemStore "b1" =
        some ⟨"foo", "foo.yml", .yaml (sampleData "b1"), none⟩ ∧
      get_flashcard_endpoint cexDupStemStore "foo" ≠
        some ⟨"foo", "foo.yml", .yaml (sampleData "b1"), none⟩ :=
  ⟨by decide, by decide, by decide, by decide⟩

/-! ## C4: create-vs-update disambiguation in the update path -/

theorem scan_found_exists (s : Store) (fid fn : String)
    (h : find_flashcard_filename_by_id s fid = some fn) :
    fileExists s fn = true := by
  unfold find_flashcard_filename_by_id at h
  rcases exists_of_findSome?_eq_some _ _ _ h with ⟨dd, hd, hval⟩
  rcases mem_list_flashcards s dd hd with ⟨e, he, rfl⟩
  have hx := scan_match_eq_filename fid (toDoc e) fn hval
  exact (fileExists_iff s fn).mpr ⟨e, he, hx.symm⟩

/-- Evaluation of `update_flashcard` once the early gates (id format,
parse, validation, id match, no rename) have passed: the filename is
resolved by the content-id scan alone and handed to the save. -/
theorem update_flashcard_eval (s : Store) (fid : String)
    (req : FlashcardUpdateRequest) (t : Option Nat) (data0 : YamlData)
    (hv : validId fid = true)
    (hp : safe_load req.content = some data0)
    (herr : (validate_flashcard_yaml (ensure_card_ids data0)).errors = [])
    (hid : (ensure_card_ids data0).id = some fid)
    (hren : req.old_id = none ∨ req.old_id = some "" ∨
      req.old_id = some fid) :
    update_flashcard s fid req t =
      (let fnOpt := find_flashcard_filename_by_id s fid
       let fn := if fnOpt.isNone then
           (if pyStrip req.filename = "" then fid ++ ".yml"
            else pyStrip req.filename)
         else fnOpt.getD ""
       match save_flashcard s fn (.yaml (ensure_card_ids data0))
           (!fnOpt.isNone) t with
       | (_, .alreadyExists) => (.conflict, s)
       | (s2, .ok doc) =>
         (.updated doc.filename fnOpt.isNone
           (validate_flashcard_yaml (ensure_card_ids data0)).warnings,
          s2)) := by
  unfold update_flashcard
  rcases hren with h | h | h <;>
    simp [h, hv, hp, herr, hid]

/-- C4 (corrected): in the no-rename update path the target filename is
resolved by the content-id scan (`find_flashcard_filename_by_id`), not the
two-phase lookup. When the scan finds a filename, the write reuses it with
overwrite forced on, so the set of stored filenames is unchanged (no second
file); when the scan finds nothing, the write targets the trimmed
caller-supplied filename, defaulting to `<id>.yml`, with overwrite off, and
an existing file under that name makes the save fail as a conflict. -/
theorem update_filename_resolution (s : Store) (fid : String)
    (req : FlashcardUpdateRequest) (t : Option Nat) (data0 : YamlData)
    (fn0 fn1 : String)
    (hv : validId fid = true)
    (hp : safe_load req.content = some data0)
    (herr : (validate_flashcard_yaml (ensure_card_ids data0)).errors = [])
    (hid : (ensure_card_ids data0).id = some fid)
    (hren : req.old_id = none ∨ req.old_id = some "" ∨
      req.old_id = some fid)
    (hfn1 : fn1 = if pyStrip req.filename = "" then fid ++ ".yml"
      else pyStrip req.filename) :
    (find_flashcard_filename_by_id s fid = some fn0 →
      update_flashcard s fid req t =
          (.updated fn0 false
            (validate_flashcard_yaml (ensure_card_ids data0)).warnings,
           upsert s fn0 (.yaml (ensure_card_ids data0)) t) ∧
        (upsert s fn0 (.yaml (ensure_card_ids data0)) t).map (·.filename) =
          s.map (·.filename)) ∧
    (find_flashcard_filename_by_id s fid = none →
      update_flashcard s fid req t =
        if fileExists s fn1 then (.conflict, s)
        else (.updated fn1 true
            (validate_flashcard_yaml (ensure_card_ids data0)).warnings,
          upsert s fn1 (.yaml (ensure_card_ids data0)) t)) := by
  rw [update_flashcard_eval s fid req t data0 hv hp herr hid hren]
  constructor
  · intro hscan
    have hex : fileExists s fn0 = true := scan_found_exists s fid fn0 hscan
    refine ⟨?_, map_filename_upsert_of_exists s fn0 _ t hex⟩
    simp [hscan, save_flashcard]
  · intro hscan
    simp only [hscan, Option.isNone_none, if_true, ← hfn1]
    cases hex : fileExists s fn1 with
    | true => simp [save_flashcard, hex]
    | false => simp [save_flashcard, hex]

/-- A store whose document `Chap9.yml` declares the id `q1`. -/
def updStore : Store := [⟨"Chap9.yml", .yaml (sampleData "q1"), none⟩]

/-- C4 witness: updating id `q1` reuses the scanned filename `Chap9.yml`
(overwriting in place) and leaves the set of stored filenames unchanged. -/
theorem update_filename_resolution_witness :
    update_flashcard updStore "q1"
          ⟨.yaml (sampleData "q1"), "ignored.yml", none⟩ (some 3) =
        (.updated "Chap9.yml" false
          (validate_flashcard_yaml
            (ensure_card_ids (sampleData "q1"))).warnings,
         upsert updStore "Chap9.yml"
           (.yaml (ensure_card_ids (sampleData "q1"))) (some 3)) ∧
      (upsert updStore "Chap9.yml"
          (.yaml (ensure_card_ids (sampleData "q1"))) (some 3)).map
          (·.filename) =
        updStore.map (·.filename) := by
  have hw := update_filename_resolution updStore "q1"
    ⟨.yaml (sampleData "q1"), "ignored.yml", none⟩ (some 3)
    (sampleData "q1") "Chap9.yml" "ignored.yml" (by decide) (by decide)
    (by decide) (by decide) (Or.inl rfl) (by decide)
  exact hw.1 (by decide)

/-- A store whose document `foo.yml` declares a different id, `bar`. -/
def cexFastPathStore : Store := [⟨"foo.yml", .yaml (sampleData "bar"), none⟩]

/-- C4 counterexample: the two-phase lookup resolves the path id `foo` to
the existing document `foo.yml` (fast path), but a valid no-rename update of
`foo` does not reuse that filename with overwrite — the content-id scan
misses, the write targets `foo.yml` as a create with overwrite off, and the
request fails as a conflict, refuting the claim as stated. -/
theorem update_ignores_fast_path :
    get_flashcard cexFastPathStore "foo" =
        some ⟨"foo", "foo.yml", .yaml (sampleData "bar"), none⟩ ∧
      update_flashcard cexFastPathStore "foo"
          ⟨.yaml (sampleData "foo"), "", none⟩ none =
        (.conflict, cexFastPathStore) :=
  ⟨by decide, by decide⟩
